import Mathlib

/-!
Shallow embedding of the messa end-to-end messaging core:
the pairwise ratchet engine (`SignalProtocolService`), the group key engine
(`MLSService`), the post-quantum hybrid wrapper (`QuantumResistantCrypto`),
and the forward-secrecy maintenance service (`ForwardSecrecyService`).

Byte buffers (`Uint8Array`) are lists of naturals.  The external cryptographic
primitives (libsodium, kyber-crystals, @noble/curves) are not code of this
repository; they are modelled as ideal, collision-free functions: each
primitive output is a tagged, length-prefixed flat encoding of its inputs, so
that equality of outputs coincides with equality of inputs, AEAD open succeeds
exactly on the sealing key/nonce/associated data, and KEM decapsulation with a
non-matching private key yields a distinct (implicit-rejection) secret.
The repository's own logic — framing, slicing, state updates, control flow —
is translated statement by statement from the TypeScript source.
-/

namespace Messa

/-- Byte buffers (`Uint8Array`): lists of naturals. -/
abbrev Bytes := List Nat

/-- Length-prefixed encoding of one component inside a primitive output. -/
def packB (b : Bytes) : Bytes := b.length :: b

/-- Inverse of `packB` on a stream: reads one length-prefixed component,
returning it together with the remainder of the stream. -/
def unpackB : Bytes → Option (Bytes × Bytes)
  | [] => none
  | l :: rest => if l ≤ rest.length then some (rest.take l, rest.drop l) else none

/-- TextEncoder: a string as bytes (injective). -/
def strBytes (s : String) : Bytes := s.toList.map Char.toNat

/-- KDF context label used by `deriveMessageKey`. -/
def lblMsgKey : String := "MSG_KEY"

/-- KDF context label used by `deriveRootKey`. -/
def lblRootKey : String := "ROOT_KEY"

/-- KDF context label used by `deriveChainKey`. -/
def lblChainKy : String := "CHAIN_KY"

/-- KDF context label used by `deriveMasterSecret`. -/
def lblMaster : String := "MASTER"

/-- Salt string used by `deriveMasterSecret`. -/
def lblMasterSalt : String := "Signal_MessageKeys_MasterSecret"

/-- Input string of `advanceChainKey`. -/
def lblAdvance : String := "advance"

/-- KDF context label of the hybrid wrapper. -/
def lblMessaEnc : String := "MESSAENC"

/-- KDF context label of the group key derivation. -/
def lblGroupKey : String := "GROUPKEY"

/-- Prefix of the group key derivation context string. -/
def lblGroupCtx : String := "MESSA_GROUP_KEY:"

/-- Separator inside the group key derivation context string. -/
def lblColon : String := ":"

/-- Sender id placed in pairwise envelopes. -/
def selfId : String := "self"

/-- DataView.setUint32 big-endian. -/
def u32be (n : Nat) : Bytes := [n / 2 ^ 24 % 256, n / 2 ^ 16 % 256, n / 2 ^ 8 % 256, n % 256]

/-- DataView.getUint32 big-endian at the start of a buffer. -/
def readU32BE (b : Bytes) : Nat :=
  b.getD 0 0 * 2 ^ 24 + b.getD 1 0 * 2 ^ 16 + b.getD 2 0 * 2 ^ 8 + b.getD 3 0

/-- Ideal model of `sodium.crypto_generichash(32, data)` (unkeyed). -/
def genericHash32 (data : Bytes) : Bytes := 1 :: packB data

/-- Ideal model of `sodium.crypto_generichash(32, data, key)` (keyed). -/
def genericHash32k (data key : Bytes) : Bytes := 2 :: packB data ++ packB key

/-- Ideal model of `sodium.crypto_kdf_derive_from_key(len, subkeyId, ctx, key)`. -/
def kdfDerive (len subkeyId : Nat) (ctx : String) (key : Bytes) : Bytes :=
  3 :: len :: subkeyId :: packB (strBytes ctx) ++ packB key

/-- Ideal model of `sodium.crypto_auth(message, key)` (HMAC-SHA512-256). -/
def cryptoAuth (message key : Bytes) : Bytes := 4 :: packB message ++ packB key

/-- Ideal model of `sodium.crypto_secretbox_easy(m, nonce, key)`. -/
def secretboxEasy (m nonce key : Bytes) : Bytes := 5 :: packB m ++ packB nonce ++ packB key

/-- Ideal model of `sodium.crypto_secretbox_open_easy`: succeeds exactly on a
well-formed box opened with the sealing nonce and key (fails closed otherwise,
as the real primitive throws on tag mismatch). -/
def secretboxOpen (c nonce key : Bytes) : Option Bytes :=
  match c with
  | 5 :: rest => do
    let (m, r1) ← unpackB rest
    let (n2, r2) ← unpackB r1
    let (k2, r3) ← unpackB r2
    if n2 = nonce ∧ k2 = key ∧ r3 = [] then some m else none
  | _ => none

/-- Ideal model of `sodium.crypto_aead_chacha20poly1305_ietf_encrypt(m, ad, null, nonce, key)`. -/
def aeadEncrypt (m ad nonce key : Bytes) : Bytes :=
  6 :: packB m ++ packB ad ++ packB nonce ++ packB key

/-- Ideal model of `sodium.crypto_aead_chacha20poly1305_ietf_decrypt`: succeeds
exactly on a well-formed box opened with the sealing associated data, nonce and
key. -/
def aeadDecrypt (c ad nonce key : Bytes) : Option Bytes :=
  match c with
  | 6 :: rest => do
    let (m, r1) ← unpackB rest
    let (a2, r2) ← unpackB r1
    let (n2, r3) ← unpackB r2
    let (k2, r4) ← unpackB r3
    if a2 = ad ∧ n2 = nonce ∧ k2 = key ∧ r4 = [] then some m else none
  | _ => none

/-- Ideal model of `ed25519.getSharedSecret(priv, pub)` (Diffie-Hellman). -/
def dhShared (priv pub : Bytes) : Bytes := 11 :: packB priv ++ packB pub

/-- Ideal model of `ed25519.sign(message, priv)`. -/
def ed25519Sign (message priv : Bytes) : Bytes := 12 :: packB message ++ packB priv

/-- Ideal KEM (Kyber768): the public key determined by the private key. -/
def kemPub (sk : Bytes) : Bytes := 7 :: packB sk

/-- Ideal KEM shared secret produced by encapsulating to `pk` with randomness `rng`. -/
def kemSharedSecret (pk rng : Bytes) : Bytes := 8 :: packB pk ++ packB rng

/-- Ideal KEM encapsulated key (the `ciphertext` half of `kyber.encapsulate`). -/
def kemCiphertext (pk rng : Bytes) : Bytes := 9 :: packB pk ++ packB rng

/-- Implicit-rejection secret returned by decapsulating a ciphertext with a
non-matching private key (distinct from every honest shared secret). -/
def kemReject (ct sk : Bytes) : Bytes := 10 :: packB ct ++ packB sk

/-- Structural parse of an ideal KEM ciphertext back into `(pk, rng)`. -/
def decodeKem (ct : Bytes) : Option (Bytes × Bytes) :=
  match ct with
  | 9 :: rest => do
    let (pk, r1) ← unpackB rest
    let (rng, r2) ← unpackB r1
    if r2 = [] then some (pk, rng) else none
  | _ => none

/-- Ideal model of `kyber.decapsulate(ct, sk)`: recovers the encapsulated
secret when `ct` was produced for `kemPub sk`, and otherwise returns the
implicit-rejection secret. -/
def kyberDecapsulate (ct sk : Bytes) : Bytes :=
  match decodeKem ct with
  | some (pk, rng) => if pk = kemPub sk then kemSharedSecret pk rng else kemReject ct sk
  | none => kemReject ct sk

/-- Model of `JSON.stringify({epoch, sender, timestamp})` used as the group
message associated data (injective byte encoding). -/
def encodeAad (epoch : Nat) (sender : String) (timestamp : Nat) : Bytes :=
  13 :: epoch :: timestamp :: packB (strBytes sender)

/-- Model of `JSON.parse(aad).epoch`: reads the epoch back out of associated
data, failing on bytes that are not a well-formed associated-data encoding. -/
def decodeAadEpoch (aad : Bytes) : Option Nat :=
  match aad with
  | 13 :: e :: _ => some e
  | _ => none

/-- Lookup in a TS `Map` modelled as an insertion-ordered association list. -/
def mapGet {α β : Type} [DecidableEq α] : List (α × β) → α → Option β
  | [], _ => none
  | p :: rest, k => if p.1 = k then some p.2 else mapGet rest k

/-- `Map.set`: overwrite in place if the key exists, else append. -/
def mapSet {α β : Type} [DecidableEq α] : List (α × β) → α → β → List (α × β)
  | [], k, v => [(k, v)]
  | p :: rest, k, v => if p.1 = k then (k, v) :: rest else p :: mapSet rest k v

/-- Typed failure results; the source raises `throw new Error(...)` (or lets a
library call throw), mapped here to one constructor per distinct failure site. -/
inductive Err where
  /-- messaging: 'No session found for recipient' / 'No session found for sender'. -/
  | sessionNotFound
  /-- sodium open/decrypt threw (AEAD or secretbox tag mismatch). -/
  | decryptionFailure
  /-- runtime TypeError: `encrypted.ephemeralPublicKey!` dereferenced while absent. -/
  | typeError
  /-- MLS: 'Group already exists'. -/
  | groupExists
  /-- MLS: 'Group not found'. -/
  | groupNotFound
  /-- MLS: 'User already in group'. -/
  | userAlreadyInGroup
  /-- MLS: 'Message from different epoch'. -/
  | epochMismatch
  /-- `JSON.parse` threw on malformed associated data. -/
  | aadParseFailure
  /-- MLS: 'Invalid add proposal'. -/
  | invalidAddProposal
  /-- MLS: 'Invalid remove proposal'. -/
  | invalidRemoveProposal
deriving DecidableEq

/-- A `{publicKey, privateKey}` pair. -/
structure KeyPair where
  publicKey : Bytes
  privateKey : Bytes
deriving DecidableEq

/-- ChainKey from the messaging-core types: `{key, index, messageKeys}`. -/
structure ChainKey where
  key : Bytes
  index : Nat
  messageKeys : List (Nat × Bytes)
deriving DecidableEq

/-- Per-peer double-ratchet session state (messaging-core types). The
`receivingChains` map is keyed by `sodium.to_hex` of the peer's ephemeral
public key; hex encoding is injective, so the key is modelled by the bytes
themselves. -/
structure Session where
  sessionId : Nat
  remoteIdentityKey : Bytes
  rootKey : Bytes
  sendingChain : ChainKey
  receivingChains : List (Bytes × ChainKey)
  previousCounter : Nat
  remoteRegistrationId : Nat
deriving DecidableEq

/-- The envelope crossing the transport boundary (messaging-core types);
`ephemeralPublicKey` is optional in the interface. -/
structure EncryptedMessage where
  id : Nat
  conversationId : String
  senderId : String
  ciphertext : Bytes
  ephemeralPublicKey : Option Bytes
  timestamp : Nat
  messageType : Nat
deriving DecidableEq

/-- Public prekey bundle; `preKeyId`/`preKey` may be absent (the source indexes
into the id array and reads the map without checking, yielding `undefined` on
an empty pool). -/
structure PreKeyBundle where
  registrationId : Nat
  deviceId : Nat
  preKeyId : Option Nat
  preKey : Option Bytes
  signedPreKeyId : Nat
  signedPreKey : Bytes
  signedPreKeySignature : Bytes
  identityKey : Bytes
deriving DecidableEq

/-- The signed-prekey record held by `SignalProtocolService`. -/
structure SignedPreKeyRec where
  keyId : Nat
  keyPair : KeyPair
  signature : Bytes
deriving DecidableEq

/-- Mutable state of a `SignalProtocolService` instance.  `zeroizedLog` is a
ghost event log recording every buffer passed to `sodium.memzero` by the
service; the `SignalProtocolService` source contains no `memzero` call, so no
operation below appends to it. -/
structure SignalState where
  identityKeyPair : Option KeyPair
  registrationId : Nat
  sessions : List (String × Session)
  preKeys : List (Nat × Bytes)
  signedPreKey : Option SignedPreKeyRec
  zeroizedLog : List Bytes
deriving DecidableEq

/-- KDF step `deriveMessageKey` of `SignalProtocolService`. -/
def deriveMessageKey (chainKey : Bytes) : Bytes := kdfDerive 32 1 lblMsgKey chainKey

/-- KDF step `deriveRootKey` of `SignalProtocolService`. -/
def deriveRootKey (masterSecret : Bytes) : Bytes := kdfDerive 32 1 lblRootKey masterSecret

/-- KDF step `deriveChainKey` of `SignalProtocolService`. -/
def deriveChainKey (rootKey : Bytes) : Bytes := kdfDerive 32 1 lblChainKy rootKey

/-- Chain advance `advanceChainKey`: `crypto_auth('advance', chainKey)`. -/
def advanceChainKey (chainKey : Bytes) : Bytes := cryptoAuth (strBytes lblAdvance) chainKey

/-- X3DH master secret `deriveMasterSecret`: concatenates the DH outputs (the
source writes them into one buffer at increasing offsets, which is list
append), hashes keyed with the salt string, and applies the KDF with context
'MASTER'. -/
def deriveMasterSecret (dh1 dh2 dh3 : Bytes) (dh4 : Option Bytes) : Bytes :=
  let dhConcat := dh1 ++ dh2 ++ dh3 ++ dh4.getD []
  kdfDerive 32 1 lblMaster (genericHash32k dhConcat (strBytes lblMasterSalt))

/-- Double-ratchet step `createReceivingChain`: generates a fresh ephemeral
keypair (its private half is the explicit randomness argument `ourEphPriv`),
derives a DH shared secret with the sender's ephemeral public key, derives a
new root key and chain key, registers the chain keyed by the sender's
ephemeral public key, and updates the session root key.  Returns the new chain
together with the updated session. -/
def createReceivingChain (session : Session) (theirEphemeralPublicKey ourEphPriv : Bytes) :
    ChainKey × Session :=
  let sharedSecret := dhShared ourEphPriv theirEphemeralPublicKey
  let newRootKey := deriveRootKey sharedSecret
  let newChainKey := deriveChainKey newRootKey
  let chain : ChainKey := { key := newChainKey, index := 0, messageKeys := [] }
  (chain,
    { session with
      receivingChains := mapSet session.receivingChains theirEphemeralPublicKey chain
      rootKey := newRootKey })

/-- The `for (const [chainId, chain] of session.receivingChains)` search in
`decryptMessage`: first chain whose `messageKeys` has the given index wins. -/
def findChainKeyFor : List (Bytes × ChainKey) → Nat → Option Bytes
  | [], _ => none
  | c :: rest, idx =>
    match mapGet c.2.messageKeys idx with
    | some mk => some mk
    | none => findChainKeyFor rest idx

/-- X3DH session bootstrap `initializeSession`.  The fresh ephemeral keypair is
the explicit randomness argument `eph`, the generated uuid is `sid`.  The
lazy-initialization branch (`identityKeyPair` still null) is not modelled:
claims operate on an initialized service, so that branch returns `none`. -/
def initializeSession (st : SignalState) (userId : String) (bundle : PreKeyBundle)
    (eph : KeyPair) (sid : Nat) : Option SignalState :=
  match st.identityKeyPair with
  | none => none
  | some idk =>
    let dh1 := dhShared idk.privateKey bundle.signedPreKey
    let dh2 := dhShared eph.privateKey bundle.identityKey
    let dh3 := dhShared eph.privateKey bundle.signedPreKey
    let dh4 : Option Bytes := bundle.preKey.map (fun pk => dhShared eph.privateKey pk)
    let masterSecret := deriveMasterSecret dh1 dh2 dh3 dh4
    let rootKey := deriveRootKey masterSecret
    let chainKey := deriveChainKey rootKey
    let session : Session :=
      { sessionId := sid
        remoteIdentityKey := bundle.identityKey
        rootKey := rootKey
        sendingChain := { key := chainKey, index := 0, messageKeys := [] }
        receivingChains := []
        previousCounter := 0
        remoteRegistrationId := bundle.registrationId }
    some { st with sessions := mapSet st.sessions userId session }

/-- Sender-side ratchet `encryptMessage`: derives the message key from the
current sending chain key, seals the plaintext under a fresh nonce (the
explicit randomness argument), prepends the nonce, advances the chain key via
`crypto_auth`, increments the index, and stores the just-used message key at
the pre-advance index.  `msgId` models the generated uuid and `now` the
timestamp.  No `sodium.memzero` call occurs in the source body, so
`zeroizedLog` is untouched. -/
def encryptMessage (st : SignalState) (recipientId : String) (message : Bytes)
    (nonce : Bytes) (msgId now : Nat) : Except Err (EncryptedMessage × SignalState) :=
  match mapGet st.sessions recipientId with
  | none => .error .sessionNotFound
  | some session =>
    let messageKey := deriveMessageKey session.sendingChain.key
    let ciphertext := secretboxEasy message nonce messageKey
    let encryptedData := nonce ++ ciphertext
    let newKey := advanceChainKey session.sendingChain.key
    let newIndex := session.sendingChain.index + 1
    let newMessageKeys := mapSet session.sendingChain.messageKeys (newIndex - 1) messageKey
    let session2 :=
      { session with
        sendingChain := { key := newKey, index := newIndex, messageKeys := newMessageKeys } }
    .ok
      ({ id := msgId
         conversationId := recipientId
         senderId := selfId
         ciphertext := encryptedData
         ephemeralPublicKey := none
         timestamp := now
         messageType := 1 },
       { st with sessions := mapSet st.sessions recipientId session2 })

/-- Receiver side `decryptMessage`: splits off the 24-byte secretbox nonce,
searches the receiving chains for a cached message key at index
`encrypted.messageType`, otherwise performs `createReceivingChain` on
`encrypted.ephemeralPublicKey!` (a runtime TypeError when that field is
absent), then opens the secretbox.  The session mutation performed by
`createReceivingChain` persists even when the subsequent open throws, so the
result carries the (possibly mutated) state in both outcomes. -/
def decryptMessage (st : SignalState) (senderId : String) (encrypted : EncryptedMessage)
    (ourEphPriv : Bytes) : Except Err Bytes × SignalState :=
  match mapGet st.sessions senderId with
  | none => (.error .sessionNotFound, st)
  | some session =>
    let nonce := encrypted.ciphertext.take 24
    let ciphertext := encrypted.ciphertext.drop 24
    match findChainKeyFor session.receivingChains encrypted.messageType with
    | some messageKey =>
      match secretboxOpen ciphertext nonce messageKey with
      | some m => (.ok m, st)
      | none => (.error .decryptionFailure, st)
    | none =>
      match encrypted.ephemeralPublicKey with
      | none => (.error .typeError, st)
      | some theirEph =>
        let (newChain, session2) := createReceivingChain session theirEph ourEphPriv
        let messageKey := deriveMessageKey newChain.key
        let st2 := { st with sessions := mapSet st.sessions senderId session2 }
        match secretboxOpen ciphertext nonce messageKey with
        | some m => (.ok m, st2)
        | none => (.error .decryptionFailure, st2)

/-- Bundle publication `generatePreKeyBundle`: picks the one-time prekey at the
random index `r` (modelling `Math.floor(Math.random() * preKeyIds.length)`;
out-of-range indexing yields `undefined` exactly as in JS) and returns the
public material together with the service state, which it leaves unchanged —
the source neither deletes the chosen prekey nor fails on an empty pool.  The
lazy-initialization branch (uninitialized service) returns `none` and is not
modelled. -/
def generatePreKeyBundle (st : SignalState) (r : Nat) :
    Option (PreKeyBundle × SignalState) :=
  match st.identityKeyPair, st.signedPreKey with
  | some idk, some spk =>
    let preKeyIds := st.preKeys.map Prod.fst
    let randomPreKeyId := preKeyIds[r]?
    let preKey := randomPreKeyId.bind (fun kid => mapGet st.preKeys kid)
    some
      ({ registrationId := st.registrationId
         deviceId := 1
         preKeyId := randomPreKeyId
         preKey := preKey
         signedPreKeyId := spk.keyId
         signedPreKey := spk.keyPair.publicKey
         signedPreKeySignature := spk.signature
         identityKey := idk.publicKey }, st)
  | _, _ => none

/-- Chain-budget maintenance `ForwardSecrecyService.cleanupOldKeys`: when a
session holds more than 5 receiving chains, sorts them ascending by message
index (a stable sort, matching `Array.prototype.sort`), marks all but the 5
newest for deletion, and removes exactly those chain ids from the map (the
source also `memzero`s the evicted key material before deleting it). -/
def cleanupOldKeys (session : Session) : Session :=
  if 5 < session.receivingChains.length then
    let chains := session.receivingChains
    let sorted := chains.mergeSort (fun a b => a.2.index ≤ b.2.index)
    let toDelete := sorted.take (chains.length - 5)
    { session with
      receivingChains :=
        chains.filter (fun p => !(toDelete.any (fun q => q.1 == p.1))) }
  else session

/-- Post-quantum hybrid seal `QuantumResistantCrypto.hybridEncrypt`:
KEM-encapsulates to the recipient public key (randomness `rng`), KDF-expands
the shared secret to 64 bytes split into an AEAD key (first 32) and extra
associated data (rest), AEAD-seals under a fresh nonce, and serializes as
`[u32 BE encapsulatedKeyLen][encapsulatedKey][nonce][ciphertext]`.  The source
then `memzero`s the shared secret and derived key (local buffers, not part of
the returned envelope). -/
def hybridEncrypt (data recipientPublicKey rng nonce : Bytes) : Bytes :=
  let sharedSecret := kemSharedSecret recipientPublicKey rng
  let encapsulatedKey := kemCiphertext recipientPublicKey rng
  let kdfOutput := kdfDerive 64 1 lblMessaEnc sharedSecret
  let encryptionKey := kdfOutput.take 32
  let additionalData := kdfOutput.drop 32
  let encrypted := aeadEncrypt data additionalData nonce encryptionKey
  u32be encapsulatedKey.length ++ encapsulatedKey ++ nonce ++ encrypted

/-- Hybrid open `QuantumResistantCrypto.hybridDecrypt`: parses the length
prefix, encapsulated key, 12-byte AEAD nonce and ciphertext, decapsulates with
the private key, re-derives the AEAD key and associated data, and opens.  A
thrown AEAD open is the `DecryptionFailure` result. -/
def hybridDecrypt (encryptedData privateKey : Bytes) : Except Err Bytes :=
  let encapsulatedKeyLength := readU32BE encryptedData
  let rest0 := encryptedData.drop 4
  let encapsulatedKey := rest0.take encapsulatedKeyLength
  let rest1 := rest0.drop encapsulatedKeyLength
  let nonce := rest1.take 12
  let encrypted := rest1.drop 12
  let sharedSecret := kyberDecapsulate encapsulatedKey privateKey
  let kdfOutput := kdfDerive 64 1 lblMessaEnc sharedSecret
  let encryptionKey := kdfOutput.take 32
  let additionalData := kdfOutput.drop 32
  match aeadDecrypt encrypted additionalData nonce encryptionKey with
  | some m => .ok m
  | none => .error .decryptionFailure

/-- Group member record (messaging-core types). -/
structure GroupMember where
  userId : String
  keyPackage : Bytes
  credential : Bytes
  addedBy : String
  addedAt : Nat
deriving DecidableEq

/-- Proposal kinds. -/
inductive ProposalType where
  | add
  | remove
  | update
deriving DecidableEq

/-- Membership-change proposal; `target` and `data` are optional in the
interface. -/
structure Proposal where
  id : Nat
  type : ProposalType
  proposer : String
  target : Option String
  data : Option Bytes
  timestamp : Nat
deriving DecidableEq

/-- Per-group state (messaging-core types). -/
structure GroupSession where
  groupId : String
  epoch : Nat
  treeHash : Bytes
  members : List GroupMember
  pendingProposals : List Proposal
deriving DecidableEq

/-- Mutable state of an `MLSService` instance. -/
structure MLSState where
  userId : String
  groups : List (String × GroupSession)
  keyPackages : List (String × Bytes)
  credentials : List (String × Bytes)
deriving DecidableEq

/-- One pass of the Merkle reduction inside `computeTreeHash`: the
`for (i = 0; i < level.length; i += 2)` loop — hash adjacent pairs, carry an
unpaired last element forward unchanged. -/
def pairwiseLevel : List Bytes → List Bytes
  | [] => []
  | [a] => [a]
  | a :: b :: rest => genericHash32 (a ++ b) :: pairwiseLevel rest

/-- Each pass halves the level size, rounding up. -/
theorem pairwiseLevel_length (l : List Bytes) :
    (pairwiseLevel l).length = (l.length + 1) / 2 := by
  induction l using pairwiseLevel.induct with
  | case1 => simp [pairwiseLevel]
  | case2 a => simp [pairwiseLevel]
  | case3 a b rest ih => simp [pairwiseLevel, ih]; omega

/-- The `while (currentLevel.length > 1)` loop of `computeTreeHash`. -/
def merkleLoop (l : List Bytes) : List Bytes :=
  if 1 < l.length then merkleLoop (pairwiseLevel l) else l
termination_by l.length
decreasing_by rw [pairwiseLevel_length]; omega

/-- Ratchet-tree commitment `MLSService.computeTreeHash`: the leaves are the
members' key packages; an empty member list hashes to 32 zero bytes, otherwise
the iterative pairwise Merkle reduction runs to a single root. -/
def computeTreeHash (members : List GroupMember) : Bytes :=
  let leaves := members.map (fun m => m.keyPackage)
  if leaves.isEmpty then List.replicate 32 0
  else (merkleLoop leaves).headD (List.replicate 32 0)

/-- Modelled from the spec: 'computes treeHash as an iterative pairwise-hash
reduction over all members' key-package public material (a Merkle reduction:
pair adjacent leaves, hash, promote; carry forward an unpaired last element)'.
Stated as a recursion over levels, to be compared with `computeTreeHash`. -/
def merkleReduceSpec : List Bytes → Bytes
  | [] => List.replicate 32 0
  | [a] => a
  | a :: b :: rest => merkleReduceSpec (pairwiseLevel (a :: b :: rest))
termination_by l => l.length
decreasing_by simp [pairwiseLevel, pairwiseLevel_length]; omega

/-- Group key schedule `MLSService.deriveGroupKey`: hashes the tree hash
concatenated with the context string `MESSA_GROUP_KEY:<groupId>:<epoch>` and
KDF-derives with subkey id `epoch` and context 'GROUPKEY'. -/
def deriveGroupKey (group : GroupSession) : Bytes :=
  let context := strBytes (lblGroupCtx ++ group.groupId ++ lblColon ++ toString group.epoch)
  let combined := group.treeHash ++ context
  kdfDerive 32 group.epoch lblGroupKey (genericHash32 combined)

/-- Group creation `MLSService.createGroup`: fails if the group already
exists; otherwise builds the member list with the creator first (its key
package and credential read from the service maps — present on an initialized
service, the source uses non-null assertions), then the other member ids in
order (skipping the creator), with key packages and credentials obtained from
the external directory capability (`fetchKP`/`fetchCred`; the source stubs
return random bytes, so they are explicit function arguments here).  Computes
the tree hash, emits the group at epoch 0 with no pending proposals, and
registers it.  The subsequent welcome delivery only logs and does not touch
service state. -/
def createGroup (st : MLSState) (groupId : String) (memberIds : List String)
    (fetchKP fetchCred : String → Bytes) (now : Nat) :
    Except Err GroupSession × MLSState :=
  if (mapGet st.groups groupId).isSome then (.error .groupExists, st)
  else
    let creator : GroupMember :=
      { userId := st.userId
        keyPackage := (mapGet st.keyPackages st.userId).getD []
        credential := (mapGet st.credentials st.userId).getD []
        addedBy := st.userId
        addedAt := now }
    let others :=
      (memberIds.filter (fun m => m != st.userId)).map fun mid =>
        ({ userId := mid
           keyPackage := fetchKP mid
           credential := fetchCred mid
           addedBy := st.userId
           addedAt := now } : GroupMember)
    let members := creator :: others
    let treeHash := computeTreeHash members
    let group : GroupSession :=
      { groupId := groupId, epoch := 0, treeHash := treeHash
        members := members, pendingProposals := [] }
    (.ok group, { st with groups := mapSet st.groups groupId group })

/-- Epoch transition `MLSService.updateEpoch`: increments the epoch and
recomputes the tree hash over the current members. -/
def updateEpoch (group : GroupSession) : GroupSession :=
  { group with epoch := group.epoch + 1, treeHash := computeTreeHash group.members }

/-- Group seal `MLSService.encryptGroupMessage`: derives the epoch group key,
builds associated data `{epoch, sender, timestamp}`, AEAD-seals under a fresh
12-byte nonce, and serializes as `[nonce][u32 BE aadLen][aad][ciphertext]`.
Reads group state only; the state comes back unchanged. -/
def encryptGroupMessage (st : MLSState) (groupId : String) (message : Bytes)
    (nonce : Bytes) (msgId now : Nat) : Except Err EncryptedMessage × MLSState :=
  match mapGet st.groups groupId with
  | none => (.error .groupNotFound, st)
  | some group =>
    let groupKey := deriveGroupKey group
    let aad := encodeAad group.epoch st.userId now
    let ciphertext := aeadEncrypt message aad nonce groupKey
    let encryptedData := nonce ++ u32be aad.length ++ aad ++ ciphertext
    (.ok
      { id := msgId
        conversationId := groupId
        senderId := st.userId
        ciphertext := encryptedData
        ephemeralPublicKey := none
        timestamp := now
        messageType := 2 }, st)

/-- Group open `MLSService.decryptGroupMessage`: parses
`[nonce(12)][u32 BE aadLen][aad][ciphertext]`, reads the epoch out of the
associated data (a thrown `JSON.parse` is `aadParseFailure`), rejects with
`epochMismatch` when it differs from the group's current epoch, otherwise
re-derives the group key and opens the AEAD ciphertext.  Reads group state
only; the state comes back unchanged in every outcome. -/
def decryptGroupMessage (st : MLSState) (groupId : String)
    (encrypted : EncryptedMessage) : Except Err Bytes × MLSState :=
  match mapGet st.groups groupId with
  | none => (.error .groupNotFound, st)
  | some group =>
    let nonce := encrypted.ciphertext.take 12
    let rest := encrypted.ciphertext.drop 12
    let aadLength := readU32BE rest
    let aad := (rest.drop 4).take aadLength
    let ciphertext := (rest.drop 4).drop aadLength
    match decodeAadEpoch aad with
    | none => (.error .aadParseFailure, st)
    | some e =>
      if e ≠ group.epoch then (.error .epochMismatch, st)
      else
        let groupKey := deriveGroupKey group
        match aeadDecrypt ciphertext aad nonce groupKey with
        | some m => (.ok m, st)
        | none => (.error .decryptionFailure, st)

/-- In-place update `group.members[memberIndex].keyPackage = data`. -/
def updateMemberKP : List GroupMember → Nat → Bytes → List GroupMember
  | [], _, _ => []
  | m :: rest, 0, d => { m with keyPackage := d } :: rest
  | m :: rest, i + 1, d => m :: updateMemberKP rest i d

/-- JS falsiness of the optional `target` string: absent or empty. -/
def falsyTarget (t : Option String) : Prop := t.getD "" = ""

instance (t : Option String) : Decidable (falsyTarget t) := by
  unfold falsyTarget; infer_instance

/-- Proposal application `MLSService.processProposal`.  For `add`: rejects
when `target` is falsy or `data` absent (a `Uint8Array` is always truthy in
JS, even empty), otherwise appends the new member (credential fetched from the
directory capability), increments the epoch and recomputes the tree hash; the
welcome delivery only logs.  For `remove`: rejects on a falsy `target`,
otherwise strips the member and updates the epoch.  For `update`: replaces the
proposer's key package and updates the epoch only when the proposer is a
current member and `data` is present; otherwise this case silently does
nothing.  Finally the processed proposal is removed from `pendingProposals`
(the throwing branches never reach this step). -/
def processProposal (st : MLSState) (groupId : String) (proposal : Proposal)
    (fetchCred : String → Bytes) (now : Nat) : Except Err Unit × MLSState :=
  match mapGet st.groups groupId with
  | none => (.error .groupNotFound, st)
  | some group =>
    match proposal.type with
    | .add =>
      if falsyTarget proposal.target ∨ proposal.data = none then
        (.error .invalidAddProposal, st)
      else
        let target := proposal.target.getD ""
        let credential := fetchCred target
        let group1 :=
          { group with
            members :=
              group.members ++
                [{ userId := target
                   keyPackage := proposal.data.getD []
                   credential := credential
                   addedBy := proposal.proposer
                   addedAt := now }] }
        let group2 := updateEpoch group1
        let group3 :=
          { group2 with
            pendingProposals := group2.pendingProposals.filter (fun p => p.id ≠ proposal.id) }
        (.ok (), { st with groups := mapSet st.groups groupId group3 })
    | .remove =>
      if falsyTarget proposal.target then (.error .invalidRemoveProposal, st)
      else
        let target := proposal.target.getD ""
        let group1 :=
          { group with members := group.members.filter (fun m => m.userId ≠ target) }
        let group2 := updateEpoch group1
        let group3 :=
          { group2 with
            pendingProposals := group2.pendingProposals.filter (fun p => p.id ≠ proposal.id) }
        (.ok (), { st with groups := mapSet st.groups groupId group3 })
    | .update =>
      let memberIndex := group.members.findIdx? (fun m => m.userId == proposal.proposer)
      match memberIndex, proposal.data with
      | some i, some d =>
        let group1 := { group with members := updateMemberKP group.members i d }
        let group2 := updateEpoch group1
        let group3 :=
          { group2 with
            pendingProposals := group2.pendingProposals.filter (fun p => p.id ≠ proposal.id) }
        (.ok (), { st with groups := mapSet st.groups groupId group3 })
      | _, _ =>
        let group3 :=
          { group with
            pendingProposals := group.pendingProposals.filter (fun p => p.id ≠ proposal.id) }
        (.ok (), { st with groups := mapSet st.groups groupId group3 })

/-- Membership addition `MLSService.addMember`: fails on an unknown group or a
user already present, otherwise enqueues an `add` proposal (uuid `pid`, key
package from the directory capability) and immediately applies it via
`processProposal`. -/
def addMember (st : MLSState) (groupId userId : String) (pid : Nat)
    (fetchKP fetchCred : String → Bytes) (now : Nat) : Except Err Unit × MLSState :=
  match mapGet st.groups groupId with
  | none => (.error .groupNotFound, st)
  | some group =>
    if group.members.any (fun m => m.userId == userId) then (.error .userAlreadyInGroup, st)
    else
      let proposal : Proposal :=
        { id := pid, type := .add, proposer := st.userId, target := some userId
          data := some (fetchKP userId), timestamp := now }
      let group1 := { group with pendingProposals := group.pendingProposals ++ [proposal] }
      let st1 := { st with groups := mapSet st.groups groupId group1 }
      processProposal st1 groupId proposal fetchCred now

/-- Membership removal `MLSService.removeMember`: fails on an unknown group,
otherwise enqueues a `remove` proposal (no key-package data) and immediately
applies it via `processProposal`. -/
def removeMember (st : MLSState) (groupId userId : String) (pid : Nat)
    (fetchCred : String → Bytes) (now : Nat) : Except Err Unit × MLSState :=
  match mapGet st.groups groupId with
  | none => (.error .groupNotFound, st)
  | some group =>
    let proposal : Proposal :=
      { id := pid, type := .remove, proposer := st.userId, target := some userId
        data := none, timestamp := now }
    let group1 := { group with pendingProposals := group.pendingProposals ++ [proposal] }
    let st1 := { st with groups := mapSet st.groups groupId group1 }
    processProposal st1 groupId proposal fetchCred now

/-! ### Basic lemmas about the byte codec and map model -/

theorem unpackB_packB (b rest : Bytes) : unpackB (packB b ++ rest) = some (b, rest) := by
  simp [unpackB, packB, List.take_left, List.drop_left]

theorem unpackB_packB_nil (b : Bytes) : unpackB (packB b) = some (b, []) := by
  simpa using unpackB_packB b []

theorem secretboxOpen_easy (m n k n2 k2 : Bytes) :
    secretboxOpen (secretboxEasy m n k) n2 k2 =
      if n = n2 ∧ k = k2 then some m else none := by
  by_cases h1 : n = n2 <;> by_cases h2 : k = k2 <;>
    simp [secretboxEasy, List.append_assoc, secretboxOpen, unpackB_packB,
      unpackB_packB_nil, h1, h2]

theorem aeadDecrypt_encrypt (m ad n k ad2 n2 k2 : Bytes) :
    aeadDecrypt (aeadEncrypt m ad n k) ad2 n2 k2 =
      if ad = ad2 ∧ n = n2 ∧ k = k2 then some m else none := by
  by_cases h1 : ad = ad2 <;> by_cases h2 : n = n2 <;> by_cases h3 : k = k2 <;>
    simp [aeadEncrypt, List.append_assoc, aeadDecrypt, unpackB_packB,
      unpackB_packB_nil, h1, h2, h3]

theorem mapGet_mapSet_self {α β : Type} [DecidableEq α] (m : List (α × β)) (k : α) (v : β) :
    mapGet (mapSet m k v) k = some v := by
  induction m with
  | nil => simp [mapGet, mapSet]
  | cons p rest ih =>
    by_cases h : p.1 = k
    · simp [mapSet, mapGet, h]
    · simp [mapSet, mapGet, h, ih]

theorem readU32BE_u32be (n : Nat) (rest : Bytes) (h : n < 2 ^ 32) :
    readU32BE (u32be n ++ rest) = n := by
  show n / 16777216 % 256 * 16777216 + n / 65536 % 256 * 65536 + n / 256 % 256 * 256 + n % 256
      = n
  omega

theorem decodeKem_kemCiphertext (pk rng : Bytes) :
    decodeKem (kemCiphertext pk rng) = some (pk, rng) := by
  simp [decodeKem, kemCiphertext, List.append_assoc, unpackB_packB, unpackB_packB_nil]

theorem kemPub_inj {sk sk2 : Bytes} (h : kemPub sk = kemPub sk2) : sk = sk2 := by
  have h2 : sk.length = sk2.length ∧ sk = sk2 := by simpa [kemPub, packB] using h
  exact h2.2

theorem kyberDecapsulate_kemCiphertext (sk rng : Bytes) :
    kyberDecapsulate (kemCiphertext (kemPub sk) rng) sk = kemSharedSecret (kemPub sk) rng := by
  simp [kyberDecapsulate, decodeKem_kemCiphertext]

theorem kyberDecapsulate_wrong_key (sk sk2 rng : Bytes) (h : sk2 ≠ sk) :
    kyberDecapsulate (kemCiphertext (kemPub sk) rng) sk2 =
      kemReject (kemCiphertext (kemPub sk) rng) sk2 := by
  have hne : kemPub sk ≠ kemPub sk2 := fun e => h (kemPub_inj e).symm
  simp [kyberDecapsulate, decodeKem_kemCiphertext, hne]

/-- The AEAD keys derived from an honest KEM shared secret and from an
implicit-rejection secret never coincide: the two secrets differ at their tag
byte, which survives the 32-byte truncation of the KDF output. -/
theorem hybridKeys_ne (pk rng ct sk : Bytes) :
    (kdfDerive 64 1 lblMessaEnc (kemSharedSecret pk rng)).take 32 ≠
      (kdfDerive 64 1 lblMessaEnc (kemReject ct sk)).take 32 := by
  intro h
  have e1 : (kdfDerive 64 1 lblMessaEnc (kemSharedSecret pk rng)).take 32 =
      3 :: 64 :: 1 :: 8 :: 77 :: 69 :: 83 :: 83 :: 65 :: 69 :: 78 :: 67 ::
        (kemSharedSecret pk rng).length :: 8 :: (packB pk ++ packB rng).take 18 := rfl
  have e2 : (kdfDerive 64 1 lblMessaEnc (kemReject ct sk)).take 32 =
      3 :: 64 :: 1 :: 8 :: 77 :: 69 :: 83 :: 83 :: 65 :: 69 :: 78 :: 67 ::
        (kemReject ct sk).length :: 10 :: (packB ct ++ packB sk).take 18 := rfl
  rw [e1, e2] at h
  simp at h

/-- Counting helper: a filter by the negation of a predicate and a filter by
the predicate split a list's length. -/
theorem length_filter_bnot {α : Type} (q : α → Bool) (l : List α) :
    (l.filter fun a => !(q a)).length + (l.filter q).length = l.length := by
  induction l with
  | nil => rfl
  | cons a t ih => by_cases h : q a <;> simp [List.filter_cons, h] <;> omega

theorem merkleLoop_headD_spec (l : List Bytes) (h : l ≠ []) :
    (merkleLoop l).headD (List.replicate 32 0) = merkleReduceSpec l := by
  induction l using merkleReduceSpec.induct with
  | case1 => simp at h
  | case2 a => rw [merkleLoop]; simp [merkleReduceSpec]
  | case3 a b rest ih =>
    rw [merkleLoop]
    have hlen : 1 < (a :: b :: rest).length := by simp
    rw [if_pos hlen, merkleReduceSpec]
    apply ih
    have hp := pairwiseLevel_length (a :: b :: rest)
    intro he
    rw [he] at hp
    simp at hp
    omega

/-- The source tree hash coincides with the spec's Merkle reduction over the
members' key packages. -/
theorem computeTreeHash_eq_spec (members : List GroupMember) :
    computeTreeHash members = merkleReduceSpec (members.map fun m => m.keyPackage) := by
  cases members with
  | nil => rw [merkleReduceSpec.eq_def]; rfl
  | cons m rest =>
    unfold computeTreeHash
    simp only [List.map_cons, List.isEmpty_cons, Bool.false_eq_true, if_false]
    exact merkleLoop_headD_spec _ (by simp)

/-- Deleting (by id) every entry of a sub-permutation from a map leaves at
most `length - deleted` entries. -/
theorem kept_le (l dele : List (Bytes × ChainKey)) (hsub : dele.Subperm l) :
    (l.filter fun p => !(dele.any fun q => q.1 == p.1)).length ≤ l.length - dele.length := by
  have hall : ∀ x ∈ dele, (dele.any fun q2 => q2.1 == x.1) = true := by
    intro x hx
    exact List.any_eq_true.mpr ⟨x, hx, by simp⟩
  have hcnt : List.countP (fun p => dele.any fun q2 => q2.1 == p.1) dele = dele.length :=
    List.countP_eq_length.mpr hall
  have hle : dele.length ≤ List.countP (fun p => dele.any fun q2 => q2.1 == p.1) l :=
    hcnt ▸ hsub.countP_le _
  have hsplit := length_filter_bnot (fun p => dele.any fun q2 => q2.1 == p.1) l
  have hfq := (List.countP_eq_length_filter (fun p => dele.any fun q2 => q2.1 == p.1) l).symm
  omega

/-- If an association list has an entry whose key is in the key list, lookup
succeeds. -/
theorem mapGet_isSome_of_mem_keys {α β : Type} [DecidableEq α] (l : List (α × β)) (k : α)
    (h : k ∈ l.map Prod.fst) : (mapGet l k).isSome := by
  induction l with
  | nil => simp at h
  | cons p rest ih =>
    by_cases hp : p.1 = k
    · simp [mapGet, hp]
    · simp only [List.map_cons, List.mem_cons] at h
      rcases h with h | h
      · exact absurd h.symm hp
      · simp [mapGet, hp, ih h]

/-! ### Concrete fixtures used by witnesses and counterexamples -/

/-- Test user id. -/
def uA : String := "alice"

/-- Test user id. -/
def uB : String := "bob"

/-- Test peer id. -/
def uP : String := "peer"

/-- Test group id. -/
def gU : String := "group1"

/-- Test plaintext. -/
def lblHello : String := "hello"

/-- A 24-byte secretbox nonce. -/
def cNonce24 : Bytes := List.replicate 24 0

/-- A 12-byte AEAD nonce. -/
def cNonce12 : Bytes := List.replicate 12 0

/-! ### C1: pairwise round trip -/

/-- C1: the claimed round trip `decryptMessage (encryptMessage P) = P` fails
on the code.  `encryptMessage` emits an envelope with no `ephemeralPublicKey`
and `messageType = 1`, while `decryptMessage` on a session with no receiving
chain (the state right after `initializeSession`, as in the spec's scenario)
finds no cached message key and dereferences the absent ephemeral key — a
runtime TypeError — so it never returns the plaintext, let alone `P`. -/
theorem c1_pairwise_roundtrip_fails (st : SignalState) (recipientId senderId : String)
    (message nonce : Bytes) (msgId now : Nat) (env : EncryptedMessage) (st2 : SignalState)
    (henc : encryptMessage st recipientId message nonce msgId now = .ok (env, st2))
    (stB : SignalState) (sB : Session) (ourEphPriv : Bytes)
    (hs : mapGet stB.sessions senderId = some sB)
    (hfresh : sB.receivingChains = []) :
    (decryptMessage stB senderId env ourEphPriv).1 = .error .typeError ∧
    ∀ m, (decryptMessage stB senderId env ourEphPriv).1 ≠ .ok m := by
  have henv : env.ephemeralPublicKey = none := by
    unfold encryptMessage at henc
    cases hsa : mapGet st.sessions recipientId with
    | none => rw [hsa] at henc; exact absurd henc (by simp)
    | some s =>
      rw [hsa] at henc
      simp only [Except.ok.injEq, Prod.mk.injEq] at henc
      rw [← henc.1]
  have hred : (decryptMessage stB senderId env ourEphPriv).1 = .error .typeError := by
    unfold decryptMessage
    rw [hs]
    dsimp only
    rw [hfresh, henv]
    rfl
  exact ⟨hred, fun m hm => by rw [hred] at hm; exact absurd hm (by simp)⟩

/-- Sender-side fixture session for the C1 witness. -/
def cSessA : Session :=
  { sessionId := 0, remoteIdentityKey := [], rootKey := []
    sendingChain := { key := [1], index := 0, messageKeys := [] }
    receivingChains := [], previousCounter := 0, remoteRegistrationId := 0 }

/-- Sender-side fixture state for the C1 witness: an established session for
`uB`. -/
def cStA : SignalState :=
  { identityKeyPair := none, registrationId := 1, sessions := [(uB, cSessA)]
    preKeys := [], signedPreKey := none, zeroizedLog := [] }

/-- Fallback envelope for total projection of the C1 encryption result. -/
def cEnvDefault : EncryptedMessage :=
  { id := 0, conversationId := uB, senderId := uB, ciphertext := []
    ephemeralPublicKey := none, timestamp := 0, messageType := 0 }

/-- The envelope produced by encrypting `"hello"` to `uB` in the C1 fixture. -/
def cEnvA : EncryptedMessage :=
  ((encryptMessage cStA uB (strBytes lblHello) cNonce24 0 0).toOption.map Prod.fst).getD
    cEnvDefault

/-- The sender state after the C1 fixture encryption. -/
def cStA2 : SignalState :=
  ((encryptMessage cStA uB (strBytes lblHello) cNonce24 0 0).toOption.map Prod.snd).getD cStA

/-- Receiver-side fixture session for the C1 witness: freshly established, no
receiving chains. -/
def cSessB : Session :=
  { sessionId := 1, remoteIdentityKey := [], rootKey := []
    sendingChain := { key := [2], index := 0, messageKeys := [] }
    receivingChains := [], previousCounter := 0, remoteRegistrationId := 0 }

/-- Receiver-side fixture state for the C1 witness: an established session for
`uA`. -/
def cStB : SignalState :=
  { identityKeyPair := none, registrationId := 2, sessions := [(uA, cSessB)]
    preKeys := [], signedPreKey := none, zeroizedLog := [] }

theorem c1_pairwise_roundtrip_fails_witness :
    (decryptMessage cStB uA cEnvA [3]).1 = .error .typeError :=
  (c1_pairwise_roundtrip_fails cStA uB uA (strBytes lblHello) cNonce24 0 0 cEnvA cStA2 rfl
    cStB cSessB [3] rfl rfl).1

/-! ### C2: one-time prekey consumption -/

/-- Fixture state for C2: initialized service with a single one-time prekey. -/
def cStP : SignalState :=
  { identityKeyPair := some { publicKey := [1], privateKey := [2] }
    registrationId := 7, sessions := [], preKeys := [(1, [9])]
    signedPreKey := some { keyId := 3, keyPair := { publicKey := [4], privateKey := [5] }, signature := [6] }
    zeroizedLog := [] }

/-- C2 counterexample: `generatePreKeyBundle` returns the selected one-time
prekey but the pool still contains it afterwards — the claimed deletion
(at-most-once use) does not happen, so repeated calls keep returning pool
members and exhaustion through bundle generation is impossible. -/
theorem c2_prekey_not_deleted_cex :
    ((generatePreKeyBundle cStP 0).map fun p => (p.1.preKey, p.2.preKeys)) =
      some (some [9], [(1, [9])]) := rfl

/-- C2 as amended: `generatePreKeyBundle` returns the device's public material
with the one-time prekey at the random index (absent when the pool is empty,
instead of any `KeyExhausted` failure, which does not exist in the source) and
leaves the service state — in particular the prekey pool — unchanged. -/
theorem c2_prekey_bundle_amended (st : SignalState) (r : Nat) (idk : KeyPair)
    (spk : SignedPreKeyRec) (h1 : st.identityKeyPair = some idk)
    (h2 : st.signedPreKey = some spk) :
    generatePreKeyBundle st r = some
      ({ registrationId := st.registrationId
         deviceId := 1
         preKeyId := (st.preKeys.map Prod.fst)[r]?
         preKey := ((st.preKeys.map Prod.fst)[r]?).bind fun kid => mapGet st.preKeys kid
         signedPreKeyId := spk.keyId
         signedPreKey := spk.keyPair.publicKey
         signedPreKeySignature := spk.signature
         identityKey := idk.publicKey }, st) ∧
    (∀ kid, (st.preKeys.map Prod.fst)[r]? = some kid → (mapGet st.preKeys kid).isSome) ∧
    (st.preKeys = [] →
      ((st.preKeys.map Prod.fst)[r]?).bind (fun kid => mapGet st.preKeys kid) = none) := by
  refine ⟨by unfold generatePreKeyBundle; rw [h1, h2], ?_, ?_⟩
  · intro kid hk
    exact mapGet_isSome_of_mem_keys st.preKeys kid (List.getElem?_mem hk)
  · intro he
    rw [he]
    rfl

theorem c2_prekey_bundle_amended_witness :
    (generatePreKeyBundle cStP 0).map (fun p => p.2) = some cStP :=
  by rw [(c2_prekey_bundle_amended cStP 0
      { publicKey := [1], privateKey := [2] }
      { keyId := 3, keyPair := { publicKey := [4], privateKey := [5] }, signature := [6] }
      rfl rfl).1]; rfl

/-! ### C3: receiving-chain bound -/

/-- Fixture receiving chain with key `[i]` and message index `i`. -/
def cCh (i : Nat) : ChainKey := { key := [i], index := i, messageKeys := [] }

/-- Fixture session for C3 holding exactly 5 receiving chains. -/
def cSess3 : Session :=
  { sessionId := 0, remoteIdentityKey := [], rootKey := []
    sendingChain := { key := [0], index := 0, messageKeys := [] }
    receivingChains := [([1], cCh 1), ([2], cCh 2), ([3], cCh 3), ([4], cCh 4), ([5], cCh 5)]
    previousCounter := 0, remoteRegistrationId := 0 }

/-- Fixture state for C3. -/
def cSt3 : SignalState :=
  { identityKeyPair := none, registrationId := 0, sessions := [(uP, cSess3)]
    preKeys := [], signedPreKey := none, zeroizedLog := [] }

/-- Fixture envelope for C3 carrying a sixth ephemeral public key. -/
def cEnv3 : EncryptedMessage :=
  { id := 0, conversationId := uP, senderId := uP, ciphertext := []
    ephemeralPublicKey := some [6], timestamp := 0, messageType := 1 }

/-- C3 counterexample: a `decryptMessage` call on a session that already holds
5 receiving chains registers a sixth one and evicts nothing — the claimed
"at most 5 concurrent receiving chains" invariant is not maintained by
`decryptMessage` (`createReceivingChain` has no bound at all). -/
theorem c3_decrypt_chains_unbounded_cex :
    ((mapGet (decryptMessage cSt3 uP cEnv3 [7]).2.sessions uP).map
      fun s => s.receivingChains.length) = some 6 := rfl

/-- C3 as amended: the K=5 bound is not enforced on the `decryptMessage` path;
it lives in `ForwardSecrecyService.cleanupOldKeys` (called from that service's
`rotateKeys`), which, whenever a session holds more than 5 receiving chains,
sorts them by message index and deletes all but the 5 newest (zeroing the
evicted key material), so that afterwards at most 5 receiving chains remain. -/
theorem c3_cleanup_bounds_chains (session : Session) :
    ((cleanupOldKeys session).receivingChains).length ≤ 5 := by
  by_cases h : 5 < session.receivingChains.length
  · unfold cleanupOldKeys
    rw [if_pos h]
    dsimp only
    have hsub :
        ((session.receivingChains.mergeSort fun a b => a.2.index ≤ b.2.index).take
            (session.receivingChains.length - 5)).Subperm session.receivingChains :=
      (List.take_sublist _ _).subperm.trans
        (List.mergeSort_perm session.receivingChains _).subperm
    have hlen :
        ((session.receivingChains.mergeSort fun a b => a.2.index ≤ b.2.index).take
            (session.receivingChains.length - 5)).length =
          session.receivingChains.length - 5 := by
      rw [List.length_take, List.length_mergeSort]
      omega
    have hk := kept_le session.receivingChains _ hsub
    rw [hlen] at hk
    omega
  · unfold cleanupOldKeys
    rw [if_neg h]
    omega

/-! ### C4: sending-chain advance -/

/-- Fixture session for C4. -/
def cSess4 : Session :=
  { sessionId := 0, remoteIdentityKey := [], rootKey := []
    sendingChain := { key := [1], index := 0, messageKeys := [] }
    receivingChains := [], previousCounter := 0, remoteRegistrationId := 0 }

/-- Fixture state for C4 with an empty zeroization log. -/
def cSt4 : SignalState :=
  { identityKeyPair := none, registrationId := 0, sessions := [(uP, cSess4)]
    preKeys := [], signedPreKey := none, zeroizedLog := [] }

/-- C4 counterexample: a concrete `encryptMessage` call advances the chain
(index 0 becomes 1) but passes nothing to `sodium.memzero` — the zeroization
log stays empty, so the previous chain-key bytes are not zeroed as claimed. -/
theorem c4_no_zeroize_cex :
    ((encryptMessage cSt4 uP [5] cNonce24 0 0).toOption.map fun p =>
      (p.2.zeroizedLog, (mapGet p.2.sessions uP).map fun s => s.sendingChain.index)) =
      some ([], some 1) := rfl

/-- The session as it stands after one `encryptMessage` chain advance: key
replaced by `advanceChainKey`, index incremented, message key cached at the
pre-advance index. -/
def advancedSession (s : Session) : Session :=
  { s with sendingChain :=
    { key := advanceChainKey s.sendingChain.key
      index := s.sendingChain.index + 1
      messageKeys := mapSet s.sendingChain.messageKeys s.sendingChain.index
        (deriveMessageKey s.sendingChain.key) } }

/-- The envelope produced by one `encryptMessage` call on a session `s`. -/
def sealedEnvelope (s : Session) (recipientId : String) (message nonce : Bytes)
    (msgId now : Nat) : EncryptedMessage :=
  { id := msgId
    conversationId := recipientId
    senderId := selfId
    ciphertext := nonce ++ secretboxEasy message nonce (deriveMessageKey s.sendingChain.key)
    ephemeralPublicKey := none
    timestamp := now
    messageType := 1 }

/-- C4 as amended: for a session whose sending chain is at index `i` with key
`k`, `encryptMessage` seals with the message key derived from `k`, advances
the chain to index `i + 1` with key `advanceChainKey k` (the source's
`crypto_auth`-based KDF), stores the just-used message key under the
pre-advance index `i` — but performs no zeroization of the previous chain-key
bytes (no `memzero` call: the zeroization log is untouched). -/
theorem c4_encrypt_advances_chain (st : SignalState) (recipientId : String)
    (message nonce : Bytes) (msgId now : Nat) (s : Session)
    (h : mapGet st.sessions recipientId = some s) :
    encryptMessage st recipientId message nonce msgId now = .ok
      (sealedEnvelope s recipientId message nonce msgId now,
       { st with sessions := mapSet st.sessions recipientId (advancedSession s) }) ∧
    mapGet (advancedSession s).sendingChain.messageKeys s.sendingChain.index =
      some (deriveMessageKey s.sendingChain.key) ∧
    ∀ env st2, encryptMessage st recipientId message nonce msgId now = .ok (env, st2) →
      st2.zeroizedLog = st.zeroizedLog := by
  have hmain : encryptMessage st recipientId message nonce msgId now = .ok
      (sealedEnvelope s recipientId message nonce msgId now,
       { st with sessions := mapSet st.sessions recipientId (advancedSession s) }) := by
    unfold encryptMessage sealedEnvelope advancedSession
    rw [h]
    dsimp only
    rw [Nat.add_sub_cancel]
  refine ⟨hmain, mapGet_mapSet_self _ _ _, ?_⟩
  intro env st2 henc
  rw [hmain] at henc
  simp only [Except.ok.injEq, Prod.mk.injEq] at henc
  rw [← henc.2]

theorem c4_encrypt_advances_chain_witness :
    encryptMessage cSt4 uP [5] cNonce24 0 0 = .ok
      (sealedEnvelope cSess4 uP [5] cNonce24 0 0,
       { cSt4 with sessions := mapSet cSt4.sessions uP (advancedSession cSess4) }) :=
  (c4_encrypt_advances_chain cSt4 uP [5] cNonce24 0 0 cSess4 rfl).1

/-! ### C5: group epoch fencing -/

/-- C5: `decryptGroupMessage` reads the epoch out of the envelope's associated
data and rejects with `epochMismatch` whenever it differs from the group's
current epoch, leaving the service state untouched; conversely a successful
decryption is only possible when the epochs coincide, so a cross-epoch message
is never silently accepted. -/
theorem c5_epoch_fencing (st : MLSState) (gid : String) (enc : EncryptedMessage)
    (g : GroupSession) (e : Nat) (hg : mapGet st.groups gid = some g)
    (hd : decodeAadEpoch (((enc.ciphertext.drop 12).drop 4).take
      (readU32BE (enc.ciphertext.drop 12))) = some e) :
    (e ≠ g.epoch → decryptGroupMessage st gid enc = (.error .epochMismatch, st)) ∧
    ∀ m st2, decryptGroupMessage st gid enc = (.ok m, st2) → e = g.epoch := by
  have hred : decryptGroupMessage st gid enc =
      if e ≠ g.epoch then (.error .epochMismatch, st)
      else
        match aeadDecrypt (((enc.ciphertext.drop 12).drop 4).drop
            (readU32BE (enc.ciphertext.drop 12)))
            (((enc.ciphertext.drop 12).drop 4).take (readU32BE (enc.ciphertext.drop 12)))
            (enc.ciphertext.take 12) (deriveGroupKey g) with
        | some m => (.ok m, st)
        | none => (.error .decryptionFailure, st) := by
    unfold decryptGroupMessage
    rw [hg]
    dsimp only
    rw [hd]
  constructor
  · intro hne
    rw [hred, if_pos hne]
  · intro m st2 hok
    by_contra hne
    rw [hred, if_pos hne] at hok
    exact absurd hok (by simp)

/-- Fixture epoch-0 group for C5 (empty member list keeps the fixture's tree
hash computation elementary). -/
def cG0 : GroupSession :=
  { groupId := gU, epoch := 0, treeHash := [7], members := [], pendingProposals := [] }

/-- Fixture MLS state holding `cG0` at epoch 0, used to produce the C5 envelope. -/
def cStM0 : MLSState :=
  { userId := uA, groups := [(gU, cG0)], keyPackages := [], credentials := [] }

/-- The C5 envelope: a group message sealed at epoch 0. -/
def cEnc5 : EncryptedMessage :=
  ((encryptGroupMessage cStM0 gU [1, 2] cNonce12 0 0).1.toOption).getD cEnvDefault

/-- Fixture MLS state after the group transitioned to epoch 1 (the
`updateEpoch` step every add/remove performs). -/
def cStM1 : MLSState :=
  { userId := uA, groups := [(gU, updateEpoch cG0)], keyPackages := [], credentials := [] }

theorem c5_epoch_fencing_witness :
    decryptGroupMessage cStM1 gU cEnc5 = (.error .epochMismatch, cStM1) :=
  (c5_epoch_fencing cStM1 gU cEnc5 (updateEpoch cG0) 0 rfl rfl).1 (by decide)

/-! ### C6: hybrid encryption round trip -/

/-- C6: for every payload and KEM keypair (public key determined by the
private key), `hybridDecrypt` inverts `hybridEncrypt` exactly, and decrypting
the same envelope with any other private key fails with `DecryptionFailure`
(the decapsulated secret is the implicit-rejection secret, the derived AEAD
key differs, and the AEAD open fails closed). -/
theorem c6_hybrid_roundtrip (data sk rng nonce : Bytes) (hn : nonce.length = 12)
    (hlen : (kemCiphertext (kemPub sk) rng).length < 2 ^ 32) :
    hybridDecrypt (hybridEncrypt data (kemPub sk) rng nonce) sk = .ok data ∧
    ∀ sk2, sk2 ≠ sk →
      hybridDecrypt (hybridEncrypt data (kemPub sk) rng nonce) sk2 =
        .error .decryptionFailure := by
  have hek : (u32be (kemCiphertext (kemPub sk) rng).length).length = 4 := rfl
  have hparse : ∀ sk3 : Bytes,
      hybridDecrypt (hybridEncrypt data (kemPub sk) rng nonce) sk3 =
        match aeadDecrypt
            (aeadEncrypt data
              ((kdfDerive 64 1 lblMessaEnc (kemSharedSecret (kemPub sk) rng)).drop 32) nonce
              ((kdfDerive 64 1 lblMessaEnc (kemSharedSecret (kemPub sk) rng)).take 32))
            ((kdfDerive 64 1 lblMessaEnc
              (kyberDecapsulate (kemCiphertext (kemPub sk) rng) sk3)).drop 32)
            nonce
            ((kdfDerive 64 1 lblMessaEnc
              (kyberDecapsulate (kemCiphertext (kemPub sk) rng) sk3)).take 32) with
        | some m => .ok m
        | none => .error .decryptionFailure := by
    intro sk3
    unfold hybridEncrypt hybridDecrypt
    dsimp only
    rw [List.append_assoc, List.append_assoc, readU32BE_u32be _ _ hlen,
      List.drop_left' hek, List.take_left, List.drop_left,
      List.take_left' hn, List.drop_left' hn]
  constructor
  · rw [hparse sk, kyberDecapsulate_kemCiphertext, aeadDecrypt_encrypt]
    simp
  · intro sk2 hne
    rw [hparse sk2, kyberDecapsulate_wrong_key sk sk2 rng hne, aeadDecrypt_encrypt]
    rw [if_neg fun hc => hybridKeys_ne (kemPub sk) rng (kemCiphertext (kemPub sk) rng) sk2
      hc.2.2]

/-- C6 fixture payload. -/
def cData6 : Bytes := [1, 2, 3]

/-- C6 fixture KEM private key. -/
def cSk6 : Bytes := [3]

/-- C6 fixture encapsulation randomness. -/
def cRng6 : Bytes := [4]

theorem c6_hybrid_roundtrip_witness :
    hybridDecrypt (hybridEncrypt cData6 (kemPub cSk6) cRng6 cNonce12) cSk6 = .ok cData6 ∧
    hybridDecrypt (hybridEncrypt cData6 (kemPub cSk6) cRng6 cNonce12) [9] =
      .error .decryptionFailure :=
  ⟨(c6_hybrid_roundtrip cData6 cSk6 cRng6 cNonce12 rfl (by decide)).1,
   (c6_hybrid_roundtrip cData6 cSk6 cRng6 cNonce12 rfl (by decide)).2 [9] (by decide)⟩

/-! ### C7: X3DH session establishment -/

/-- C7: `initializeSession` computes `DH1 = DH(ourIdentity, theirSignedPreKey)`,
`DH2 = DH(ourEphemeral, theirIdentity)`, `DH3 = DH(ourEphemeral,
theirSignedPreKey)` and, exactly when the bundle supplies a one-time prekey,
`DH4 = DH(ourEphemeral, theirOneTimePreKey)`; the master secret is the KDF of
the keyed hash of the concatenation `DH1‖DH2‖DH3‖DH4` (`DH4` empty when
absent), the root key is KDF-derived from it and the sending chain key from
the root key; the stored session starts at index 0 with no receiving chains.
The whole computation is a function of the local state, the bundle and local
randomness — no round-trip to the peer. -/
theorem c7_x3dh_session (st : SignalState) (userId : String) (bundle : PreKeyBundle)
    (eph : KeyPair) (sid : Nat) (idk : KeyPair) (h : st.identityKeyPair = some idk) :
    (∃ st2, initializeSession st userId bundle eph sid = some st2 ∧
      mapGet st2.sessions userId = some
        { sessionId := sid
          remoteIdentityKey := bundle.identityKey
          rootKey := deriveRootKey (deriveMasterSecret
            (dhShared idk.privateKey bundle.signedPreKey)
            (dhShared eph.privateKey bundle.identityKey)
            (dhShared eph.privateKey bundle.signedPreKey)
            (bundle.preKey.map fun pk => dhShared eph.privateKey pk))
          sendingChain :=
            { key := deriveChainKey (deriveRootKey (deriveMasterSecret
                (dhShared idk.privateKey bundle.signedPreKey)
                (dhShared eph.privateKey bundle.identityKey)
                (dhShared eph.privateKey bundle.signedPreKey)
                (bundle.preKey.map fun pk => dhShared eph.privateKey pk)))
              index := 0
              messageKeys := [] }
          receivingChains := []
          previousCounter := 0
          remoteRegistrationId := bundle.registrationId }) ∧
    (∀ d1 d2 d3 d4 : Bytes, deriveMasterSecret d1 d2 d3 (some d4) =
      kdfDerive 32 1 lblMaster
        (genericHash32k (d1 ++ d2 ++ d3 ++ d4) (strBytes lblMasterSalt))) ∧
    (∀ d1 d2 d3 : Bytes, deriveMasterSecret d1 d2 d3 none =
      kdfDerive 32 1 lblMaster
        (genericHash32k (d1 ++ d2 ++ d3) (strBytes lblMasterSalt))) := by
  refine ⟨?_, ?_, ?_⟩
  · unfold initializeSession
    rw [h]
    dsimp only
    exact ⟨_, rfl, mapGet_mapSet_self _ _ _⟩
  · intro d1 d2 d3 d4
    simp [deriveMasterSecret]
  · intro d1 d2 d3
    simp [deriveMasterSecret]

/-- C7 fixture bundle (with a one-time prekey). -/
def cBundle7 : PreKeyBundle :=
  { registrationId := 5, deviceId := 1, preKeyId := some 1, preKey := some [11]
    signedPreKeyId := 2, signedPreKey := [12], signedPreKeySignature := [13]
    identityKey := [14] }

/-- C7 fixture ephemeral keypair. -/
def cEph7 : KeyPair := { publicKey := [15], privateKey := [16] }

/-- C7 fixture state: initialized identity, no sessions yet. -/
def cSt7 : SignalState :=
  { identityKeyPair := some { publicKey := [1], privateKey := [2] }
    registrationId := 5, sessions := [], preKeys := [], signedPreKey := none
    zeroizedLog := [] }

theorem c7_x3dh_session_witness :
    (initializeSession cSt7 uA cBundle7 cEph7 0).map
      (fun st2 => (mapGet st2.sessions uA).isSome) = some true := by
  obtain ⟨st2, h1, h2⟩ :=
    (c7_x3dh_session cSt7 uA cBundle7 cEph7 0 { publicKey := [1], privateKey := [2] } rfl).1
  rw [h1]
  simp [h2]

/-! ### C8: group creation -/

/-- C8: `createGroup` (on a fresh group id) registers a `GroupSession` at
epoch 0, with no pending proposals, whose member list puts the creator first
followed by the other requested members in order (creator duplicates
skipped), and whose tree hash is the iterative pairwise Merkle reduction over
the members' key packages — pair adjacent leaves, hash, promote, carry an
unpaired last element (stated via `merkleReduceSpec`, written from the spec's
words). -/
theorem c8_create_group (st : MLSState) (gid : String) (memberIds : List String)
    (fetchKP fetchCred : String → Bytes) (now : Nat)
    (hg : mapGet st.groups gid = none) :
    ∃ G, createGroup st gid memberIds fetchKP fetchCred now =
        (.ok G, { st with groups := mapSet st.groups gid G }) ∧
      G.epoch = 0 ∧
      G.pendingProposals = [] ∧
      G.members =
        ({ userId := st.userId
           keyPackage := (mapGet st.keyPackages st.userId).getD []
           credential := (mapGet st.credentials st.userId).getD []
           addedBy := st.userId
           addedAt := now } : GroupMember) ::
          (memberIds.filter fun m => m != st.userId).map (fun mid =>
            { userId := mid, keyPackage := fetchKP mid, credential := fetchCred mid
              addedBy := st.userId, addedAt := now }) ∧
      G.treeHash = merkleReduceSpec (G.members.map fun m => m.keyPackage) := by
  unfold createGroup
  rw [hg]
  dsimp only [Option.isSome_none, Bool.false_eq_true, if_false]
  refine ⟨_, rfl, rfl, rfl, rfl, ?_⟩
  dsimp only
  exact computeTreeHash_eq_spec _

/-- C8 fixture MLS state: initialized service, no groups yet. -/
def cStG : MLSState :=
  { userId := uA, groups := [], keyPackages := [(uA, [21])], credentials := [(uA, [22])] }

/-- C8 fixture directory stub. -/
def cFetch (_u : String) : Bytes := [23]

theorem c8_create_group_witness :
    ((createGroup cStG gU [uB] cFetch cFetch 0).1.toOption.map
      fun G => (G.epoch, G.members.map fun m => m.userId)) = some (0, [uA, uB]) := by
  obtain ⟨G, h1, h2, _, h4, _⟩ := c8_create_group cStG gU [uB] cFetch cFetch 0 rfl
  rw [h1]
  dsimp only [Except.toOption, Option.map]
  rw [h2, h4]
  rfl

/-! ### C9: group encryption and decryption are read-only -/

/-- C9: neither `encryptGroupMessage` nor `decryptGroupMessage` modifies the
service state: the group registry — hence every group's epoch, member list,
tree hash and pending proposals — is returned exactly as it was, in every
outcome, including the failing ones (unknown group, malformed or cross-epoch
associated data, AEAD failure). -/
theorem c9_group_encrypt_decrypt_frame (st : MLSState) (groupId : String)
    (message nonce : Bytes) (msgId now : Nat) (encrypted : EncryptedMessage) :
    (encryptGroupMessage st groupId message nonce msgId now).2 = st ∧
    (decryptGroupMessage st groupId encrypted).2 = st := by
  constructor
  · unfold encryptGroupMessage
    cases mapGet st.groups groupId <;> rfl
  · unfold decryptGroupMessage
    cases mapGet st.groups groupId with
    | none => rfl
    | some g =>
      dsimp only
      cases decodeAadEpoch (((encrypted.ciphertext.drop 12).drop 4).take
        (readU32BE (encrypted.ciphertext.drop 12))) with
      | none => rfl
      | some e =>
        dsimp only
        by_cases he : e ≠ g.epoch
        · rw [if_pos he]
        · rw [if_neg he]
          cases aeadDecrypt (((encrypted.ciphertext.drop 12).drop 4).drop
              (readU32BE (encrypted.ciphertext.drop 12)))
              (((encrypted.ciphertext.drop 12).drop 4).take
                (readU32BE (encrypted.ciphertext.drop 12)))
              (encrypted.ciphertext.take 12) (deriveGroupKey g) <;> rfl

/-! ### C10: benign no-op of degenerate update proposals -/

/-- The group after `processProposal` merely strips the processed proposal
from the pending queue. -/
def proposalStripped (g : GroupSession) (pid : Nat) : GroupSession :=
  { g with pendingProposals := g.pendingProposals.filter fun p => p.id ≠ pid }

/-- C10: an `update` proposal whose proposer is not a current member, or which
carries no key-package data, completes without error and leaves the group's
members, tree hash and epoch unchanged — its only effect is that the proposal
disappears from `pendingProposals`; in contrast, an `add` with a falsy target
or no data fails with `invalidAddProposal` and a `remove` with a falsy target
fails with `invalidRemoveProposal`, both leaving the state untouched. -/
theorem c10_update_proposal_benign (st : MLSState) (gid : String) (p : Proposal)
    (g : GroupSession) (fetchCred : String → Bytes) (now : Nat)
    (hg : mapGet st.groups gid = some g) :
    (p.type = .update →
      (g.members.findIdx? (fun m => m.userId == p.proposer) = none ∨ p.data = none) →
      processProposal st gid p fetchCred now =
        (.ok (), { st with groups := mapSet st.groups gid (proposalStripped g p.id) })) ∧
    (p.type = .add → (falsyTarget p.target ∨ p.data = none) →
      processProposal st gid p fetchCred now = (.error .invalidAddProposal, st)) ∧
    (p.type = .remove → falsyTarget p.target →
      processProposal st gid p fetchCred now = (.error .invalidRemoveProposal, st)) := by
  refine ⟨?_, ?_, ?_⟩
  · intro ht hcond
    unfold processProposal proposalStripped
    rw [hg, ht]
    dsimp only
    rcases hcond with hidx | hdata
    · rw [hidx]
    · rw [hdata]
      cases g.members.findIdx? (fun m => m.userId == p.proposer) <;> rfl
  · intro ht hcond
    unfold processProposal
    rw [hg, ht]
    dsimp only
    rw [if_pos hcond]
  · intro ht hcond
    unfold processProposal
    rw [hg, ht]
    dsimp only
    rw [if_pos hcond]

/-- C10 fixture group: empty member list (so any proposer is a non-member) and
one pending update proposal. -/
def cP10 : Proposal :=
  { id := 5, type := .update, proposer := uB, target := none, data := some [9]
    timestamp := 0 }

/-- C10 fixture group holding `cP10` in its queue. -/
def cG10 : GroupSession :=
  { groupId := gU, epoch := 3, treeHash := [8], members := [], pendingProposals := [cP10] }

/-- C10 fixture MLS state. -/
def cSt10 : MLSState :=
  { userId := uA, groups := [(gU, cG10)], keyPackages := [], credentials := [] }

theorem c10_update_proposal_benign_witness :
    processProposal cSt10 gU cP10 cFetch 0 =
      (.ok (), { cSt10 with groups := mapSet cSt10.groups gU (proposalStripped cG10 cP10.id) }) :=
  (c10_update_proposal_benign cSt10 gU cP10 cG10 cFetch 0 rfl).1 rfl (Or.inl rfl)

end Messa
